import Mathlib

/-!
Verification of the client-side poker round engine and remote game client of
the fhe-poker repository.

The Local Round Engine lives in `src/app/src/features/table/DemoMode.tsx`.
That file holds two variants of the engine: a 4-player engine (the component
defined first: `shuffleDeck`, `startGame`, `isBettingRoundComplete`,
`nextPhase`, `determineWinner`, `findNextPlayer`, `handleAction`, and the bot
timer effect) and a later 3-player variant (`shuffle`, `start`, `bettingDone`,
`action`, and its own bot effect).  The Remote-Authoritative Game Client lives
in `src/frontend/src/pages/Game.tsx` (`loadGameInfo` and the phase-transition
effect).  All definitions below are direct translations of that code; chip
amounts are integers (JavaScript numbers used only integrally), card values
are naturals in 1..52.
-/

namespace FhePoker

/-- Game phases, from the `GamePhase` union type in DemoMode.tsx. -/
inductive Phase where
  | waiting | preflop | flop | turn | river | showdown | finished
deriving DecidableEq, Repr

/-- A seated player, from the `Player` interface in DemoMode.tsx (UI-only
fields `name`, `avatar`, `color`, `isBot`, `isDealer` are dropped; they are
never read by the game logic). -/
structure Player where
  id : Nat
  chips : Int
  cards : List Nat
  bet : Int
  folded : Bool
deriving DecidableEq, Repr

instance : Inhabited Player := ⟨⟨0, 0, [], 0, false⟩⟩

/-- The React state of the 4-player engine component. -/
structure GameState where
  phase : Phase
  pot : Int
  currentBet : Int
  currentPlayerIndex : Int
  community : List Nat
  deck : List Nat
  players : List Player
  winner : Option Nat
deriving DecidableEq, Repr

/-- The fixed small blind of the 4-player engine (`smallBlind = 10`). -/
def smallBlind : Int := 10

/-- The fixed big blind of the 4-player engine (`bigBlind = 20`). -/
def bigBlind : Int := 20

/-- One Fisher–Yates swap step: `[newDeck[i], newDeck[j]] = [newDeck[j], newDeck[i]]`. -/
def swapIdx (l : List Nat) (i j : Nat) : List Nat :=
  (l.set i (l.getD j 0)).set j (l.getD i 0)

/-- The descending loop of `shuffleDeck`: `for (i = len-1; i > 0; i--)` with
`j = Math.floor(Math.random() * (i + 1))`; the random draw at index `i` is
modelled as `rand i % (i + 1)`, an arbitrary element of `[0, i]`. -/
def fisherYatesAux (rand : Nat → Nat) : Nat → List Nat → List Nat
  | 0, l => l
  | n + 1, l => fisherYatesAux rand n (swapIdx l (n + 1) (rand (n + 1) % (n + 2)))

/-- `shuffleDeck` from DemoMode.tsx: build `[1..52]` and run Fisher–Yates. -/
def shuffleDeck (rand : Nat → Nat) : List Nat :=
  fisherYatesAux rand 51 (List.range' 1 52)

theorem swapIdx_length (l : List Nat) (i j : Nat) :
    (swapIdx l i j).length = l.length := by
  simp [swapIdx]

theorem swapIdx_perm (l : List Nat) (i j : Nat) (hi : i < l.length) (hj : j < l.length) :
    (swapIdx l i j).Perm l := by
  unfold swapIdx
  rw [List.getD_eq_getElem l 0 hi, List.getD_eq_getElem l 0 hj]
  rw [List.perm_iff_count]
  intro a
  have hj2 : j < (l.set i (l[j])).length := by simpa using hj
  have hA : (if l[i] == a then 1 else 0) ≤ l.count a := by
    by_cases h : l[i] = a
    · have hmem : a ∈ l := h ▸ List.getElem_mem hi
      simp [h, List.one_le_count_iff, hmem]
    · simp [h]
  rw [List.count_set _ _ _ _ hj2, List.count_set _ _ _ _ hi]
  simp only [List.getElem_set]
  by_cases h1 : l[i] = a <;> by_cases h2 : l[j] = a <;>
    by_cases hij : i = j <;>
    simp_all

theorem fisherYatesAux_perm (rand : Nat → Nat) :
    ∀ (n : Nat) (l : List Nat), n < l.length → (fisherYatesAux rand n l).Perm l
  | 0, l, _ => List.Perm.refl l
  | n + 1, l, h => by
    have hj : rand (n + 1) % (n + 2) < l.length :=
      lt_of_le_of_lt (Nat.le_of_lt_succ (Nat.mod_lt _ (Nat.succ_pos _))) h
    have hlen : n < (swapIdx l (n + 1) (rand (n + 1) % (n + 2))).length := by
      rw [swapIdx_length]; omega
    exact (fisherYatesAux_perm rand n _ hlen).trans (swapIdx_perm l _ _ h hj)

theorem shuffleDeck_perm (rand : Nat → Nat) :
    (shuffleDeck rand).Perm (List.range' 1 52) := by
  apply fisherYatesAux_perm
  simp

theorem shuffleDeck_length (rand : Nat → Nat) : (shuffleDeck rand).length = 52 := by
  simpa using (shuffleDeck_perm rand).length_eq

/-- C9: for every sequence of random index choices, the Fisher–Yates shuffle
returns a permutation of exactly the 52 distinct integers 1..52 — no
duplicates and no omissions. -/
theorem shuffle_is_permutation (rand : Nat → Nat) :
    (shuffleDeck rand).Perm (List.range' 1 52)
      ∧ (shuffleDeck rand).Nodup ∧ (shuffleDeck rand).length = 52
      ∧ ∀ x, x ∈ shuffleDeck rand ↔ (1 ≤ x ∧ x ≤ 52) := by
  have hperm : (shuffleDeck rand).Perm (List.range' 1 52) := shuffleDeck_perm rand
  refine ⟨hperm, hperm.nodup_iff.mpr (List.nodup_range' 1 52), shuffleDeck_length rand, ?_⟩
  intro x
  rw [hperm.mem_iff, List.mem_range']
  constructor
  · rintro ⟨i, hi, rfl⟩; omega
  · intro hx
    exact ⟨x - 1, by omega, by omega⟩

/-- `getActivePlayers` from DemoMode.tsx: `players.filter(p => !p.folded && p.chips > 0)`. -/
def getActivePlayers (ps : List Player) : List Player :=
  ps.filter (fun p => !p.folded && decide (0 < p.chips))

/-- The `maxBet` computation inside `isBettingRoundComplete`:
`Math.max(...activePlayers.map(p => p.bet))` for a non-empty list. -/
def maxBetOf (ps : List Player) : Int :=
  match ps.map Player.bet with
  | [] => 0
  | b :: bs => bs.foldl max b

/-- `isBettingRoundComplete` from DemoMode.tsx: true when at most one active
player remains, or every active player has `bet === maxBet || chips === 0`. -/
def isBettingRoundComplete (ps : List Player) : Bool :=
  let activePlayers := getActivePlayers ps
  if activePlayers.length ≤ 1 then true
  else
    let maxBet := maxBetOf activePlayers
    activePlayers.all (fun p => p.bet == maxBet || p.chips == 0)

/-- The scanning loop of `findNextPlayer`: at most `count` probes, each
skipping folded seats circularly. -/
def findNextPlayerAux (ps : List Player) : Nat → Nat → Int
  | _, 0 => -1
  | next, count + 1 =>
    if (ps.getD next default).folded = false then (next : Int)
    else findNextPlayerAux ps ((next + 1) % ps.length) count

/-- `findNextPlayer` from DemoMode.tsx: scan forward circularly from
`fromIndex + 1`, skipping folded seats; `-1` when no active seat remains. -/
def findNextPlayer (ps : List Player) (fromIndex : Int) : Int :=
  findNextPlayerAux ps ((fromIndex + 1).toNat % ps.length) ps.length

/-- One pass of the deal loop in `startGame`: in seat order, each player is
pushed the next card from the front of the deck. -/
def dealPass : List Player → List Nat → List Player × List Nat
  | [], deck => ([], deck)
  | p :: ps, [] => (p :: ps, [])
  | p :: ps, c :: deck =>
    let r := dealPass ps deck
    ({ p with cards := p.cards ++ [c] } :: r.1, r.2)

/-- In-place update of one seat, as the code's `resetPlayers[i].field = v`
mutations (out-of-range index touches nothing). -/
def modifyAt : List Player → Nat → (Player → Player) → List Player
  | [], _, _ => []
  | p :: ps, 0, f => f p :: ps
  | p :: ps, i + 1, f => p :: modifyAt ps i f

/-- The per-player reset in `startGame`: clear cards/bet/folded and refill a
broke player's stack to 1000. -/
def refill (p : Player) : Player :=
  { p with cards := [], bet := 0, folded := false,
           chips := if p.chips ≤ 0 then 1000 else p.chips }

/-- `startGame` from DemoMode.tsx: shuffle, reset players (with broke-player
refill), deal two round-robin passes, post blinds at seats 1 and 2, pot = 30,
currentBet = big blind, first actor = seat `3 % playerCount`. -/
def startGame (rand : Nat → Nat) (s : GameState) : GameState :=
  let newDeck := shuffleDeck rand
  let resetPlayers := s.players.map refill
  let d1 := dealPass resetPlayers newDeck
  let d2 := dealPass d1.1 d1.2
  let withSB := modifyAt d2.1 1 (fun p => { p with bet := smallBlind, chips := p.chips - smallBlind })
  let withBB := modifyAt withSB 2 (fun p => { p with bet := bigBlind, chips := p.chips - bigBlind })
  { s with players := withBB, deck := d2.2, pot := smallBlind + bigBlind,
           currentBet := bigBlind, currentPlayerIndex := ((3 % withBB.length : Nat) : Int),
           community := [], phase := .preflop, winner := none }

/-- The pot award `players.map(p => p.id === winner.id ? {...p, chips: p.chips + pot} : p)`. -/
def awardPot (ps : List Player) (wid : Nat) (amount : Int) : List Player :=
  ps.map (fun p => if p.id = wid then { p with chips := p.chips + amount } else p)

/-- `determineWinner` from DemoMode.tsx.  It is a `useCallback` closing over
`players` and `pot`; `closurePlayers`/`closurePot` are those captured values
(when invoked from `nextPhase` they are the pre-reset players and the pot as
of the render, which can lag the queued pot update).  `wrand` models
`Math.floor(Math.random() * activePlayers.length)` as `wrand % length`.
With no active player it returns without choosing a winner. -/
def determineWinner (wrand : Nat) (closurePlayers : List Player) (closurePot : Int)
    (s : GameState) : GameState :=
  let activePlayers := getActivePlayers closurePlayers
  match activePlayers with
  | [] => s
  | _ =>
    let gameWinner := activePlayers.getD (wrand % activePlayers.length) default
    { s with players := awardPot closurePlayers gameWinner.id closurePot,
             winner := some gameWinner.id, phase := .finished }

/-- The `firstActive` computation at the end of `nextPhase`:
`findIndex(p => !p.folded)`, defaulting to 0 when every seat is folded. -/
def firstActiveIdx (ps : List Player) : Int :=
  match ps.findIdx? (fun p => !p.folded) with
  | some i => (i : Int)
  | none => 0

/-- `nextPhase` from DemoMode.tsx: reset bets and table bet, deal 3/1/1
community cards (the code reads `currentDeck[0..2]` and `slice`s; `take`/
`drop` coincide with that whenever the deck holds enough cards, which every
reachable deck does), advance the phase, run the showdown at river
completion, and reset the actor to the first non-folded seat.  `closurePot`
is `determineWinner`'s captured pot. -/
def nextPhase (wrand : Nat) (closurePot : Int) (s : GameState) : GameState :=
  let resetPlayers := s.players.map (fun p => { p with bet := 0 })
  let s' :=
    match s.phase with
    | .preflop =>
      { s with players := resetPlayers, currentBet := 0,
               community := s.deck.take 3, deck := s.deck.drop 3, phase := .flop }
    | .flop =>
      { s with players := resetPlayers, currentBet := 0,
               community := s.community ++ s.deck.take 1, deck := s.deck.drop 1, phase := .turn }
    | .turn =>
      { s with players := resetPlayers, currentBet := 0,
               community := s.community ++ s.deck.take 1, deck := s.deck.drop 1, phase := .river }
    | .river =>
      determineWinner wrand s.players closurePot
        { s with players := resetPlayers, currentBet := 0, phase := .showdown }
    | _ => { s with players := resetPlayers, currentBet := 0 }
  { s' with currentPlayerIndex := firstActiveIdx resetPlayers }

/-- The human action tags of `handleAction`. -/
inductive HAction where
  | fold | check | call | raise
deriving DecidableEq, Repr

/-- The action `switch` of `handleAction`, acting on seat 0.  Returns the
updated seat-0 player, pot, and table bet, or `none` when the precondition
fails (invalid check or unaffordable raise): those paths return before any
mutation. -/
def applyHuman (a : HAction) (s : GameState) (player : Player) :
    Option (Player × Int × Int) :=
  match a with
  | .fold => some ({ player with folded := true }, s.pot, s.currentBet)
  | .check =>
    if s.currentBet > player.bet then none
    else some (player, s.pot, s.currentBet)
  | .call =>
    let callAmount := s.currentBet - player.bet
    if callAmount > player.chips then
      some ({ player with bet := player.bet + player.chips, chips := 0 },
            s.pot + player.chips, s.currentBet)
    else
      some ({ player with chips := player.chips - callAmount, bet := s.currentBet },
            s.pot + callAmount, s.currentBet)
  | .raise =>
    let raiseAmount := bigBlind * 2
    let totalBet := s.currentBet + raiseAmount
    let needed := totalBet - player.bet
    if needed > player.chips then none
    else
      some ({ player with chips := player.chips - needed, bet := totalBet },
            s.pot + needed, totalBet)

/-- The tail of `handleAction` after the switch: if a lone non-folded player
remains, award the (closure) pot and finish; otherwise advance the turn via
`findNextPlayer(0)`. -/
def finishOrAdvance (s : GameState) (updated : List Player) (pot' cb' : Int) : GameState :=
  let activePlayers := updated.filter (fun p => !p.folded)
  match activePlayers with
  | [lastPlayer] =>
    { s with players := awardPot updated lastPlayer.id s.pot, pot := pot',
             currentBet := cb', winner := some lastPlayer.id, phase := .finished }
  | _ =>
    { s with players := updated, pot := pot', currentBet := cb',
             currentPlayerIndex := findNextPlayer updated 0 }

/-- `handleAction` from DemoMode.tsx: the human (seat 0) action handler. -/
def handleAction (s : GameState) (a : HAction) : GameState :=
  if s.phase = .waiting ∨ s.phase = .showdown ∨ s.phase = .finished then s
  else if s.currentPlayerIndex ≠ 0 then s
  else
    match s.players with
    | [] => s
    | player :: rest =>
      match applyHuman a s player with
      | none => s
      | some (p', pot', cb') => finishOrAdvance s (p' :: rest) pot' cb'

/-- The bot policy threshold 0.1, as the exact rational 1/10 in constructor
form. -/
def botRaiseThreshold : ℚ := ⟨1, 10, by decide, by decide⟩

/-- The bot policy threshold 0.3, as the exact rational 3/10 in constructor
form. -/
def botFoldThreshold : ℚ := ⟨3, 10, by decide, by decide⟩

/-- The bot decision inside the timer callback: with `rand` drawn from
`[0,1)`, roughly 10% raise (when affordable), 20% fold (when facing a bet),
else call/check, with an `callAmount >= chips` all-in clamp on calls.
Returns the updated bot, pot, and table bet. -/
def botDecide (rand : ℚ) (s : GameState) (bot : Player) : Player × Int × Int :=
  if rand < botRaiseThreshold ∧ bot.chips > s.currentBet * 2 then
    let raiseAmount := bigBlind
    let totalBet := s.currentBet + raiseAmount
    let needed := totalBet - bot.bet
    ({ bot with chips := bot.chips - needed, bet := totalBet }, s.pot + needed, totalBet)
  else if rand < botFoldThreshold ∧ s.currentBet > bot.bet then
    ({ bot with folded := true }, s.pot, s.currentBet)
  else
    let callAmount := s.currentBet - bot.bet
    if callAmount > 0 then
      if callAmount ≥ bot.chips then
        ({ bot with bet := bot.bet + bot.chips, chips := 0 }, s.pot + bot.chips, s.currentBet)
      else
        ({ bot with chips := bot.chips - callAmount, bet := s.currentBet },
         s.pot + callAmount, s.currentBet)
    else (bot, s.pot, s.currentBet)

/-- The tail of the bot timer callback: award to a lone survivor (closure
pot), otherwise advance — back to the human with a round-completion check
(`nextPhase` on completion), `nextPhase` when no seat remains, or on to the
next bot. -/
def botFinishOrAdvance (wrand : Nat) (s : GameState) (updated : List Player)
    (pot' cb' : Int) (idx : Int) : GameState :=
  let activePlayers := updated.filter (fun p => !p.folded)
  match activePlayers with
  | [lastPlayer] =>
    { s with players := awardPot updated lastPlayer.id s.pot, pot := pot',
             currentBet := cb', winner := some lastPlayer.id, phase := .finished }
  | _ =>
    let s1 := { s with players := updated, pot := pot', currentBet := cb' }
    let next := findNextPlayer updated idx
    if next = 0 then
      if isBettingRoundComplete updated then nextPhase wrand s.pot s1
      else { s1 with currentPlayerIndex := 0 }
    else if next = -1 then nextPhase wrand s.pot s1
    else { s1 with currentPlayerIndex := next }

/-- The skip branch of the bot effect (`!currentPlayer || currentPlayer.folded`):
advance the index without acting. -/
def botSkipAdvance (wrand : Nat) (s : GameState) : GameState :=
  let next := findNextPlayer s.players s.currentPlayerIndex
  if next = 0 ∨ next = -1 then
    if isBettingRoundComplete s.players then nextPhase wrand s.pot s
    else { s with currentPlayerIndex := 0 }
  else { s with currentPlayerIndex := next }

/-- The bot AI `useEffect` of DemoMode.tsx, covering both its synchronous
skip branch and the timed decision; `rand` is the bot's `Math.random()`
draw and `wrand` the showdown pick used if this step runs `nextPhase` at the
river. -/
def botStep (rand : ℚ) (wrand : Nat) (s : GameState) : GameState :=
  if s.phase = .waiting ∨ s.phase = .showdown ∨ s.phase = .finished then s
  else if s.currentPlayerIndex = 0 then s
  else
    match (if 0 ≤ s.currentPlayerIndex
           then s.players.get? s.currentPlayerIndex.toNat else none) with
    | none => botSkipAdvance wrand s
    | some bot =>
      if bot.folded then botSkipAdvance wrand s
      else
        botFinishOrAdvance wrand s
          (s.players.set s.currentPlayerIndex.toNat (botDecide rand s bot).1)
          (botDecide rand s bot).2.1 (botDecide rand s bot).2.2 s.currentPlayerIndex

/-- One transition of the engine: a human action or one firing of the bot
effect. -/
inductive Act where
  | human (a : HAction)
  | bot (rand : ℚ) (wrand : Nat)

/-- Apply one transition. -/
def stepA : Act → GameState → GameState
  | .human a, s => handleAction s a
  | .bot r w, s => botStep r w s

/-- States reachable from `s` by engine transitions. -/
inductive Reaches : GameState → GameState → Prop
  | refl (s : GameState) : Reaches s s
  | step (a : Act) {s t : GameState} : Reaches s t → Reaches s (stepA a t)

/-- Total chips held in player stacks. -/
def sumChips (ps : List Player) : Int :=
  (ps.map Player.chips).sum

/-- The sum of all chip stacks at hand start, after the broke-player refill
and before blinds are posted. -/
def startSum (s : GameState) : Int :=
  sumChips (s.players.map refill)

/-- Every card the engine is tracking: hole cards, board, and undealt deck. -/
def allCards (s : GameState) : List Nat :=
  (s.players.flatMap Player.cards) ++ s.community ++ s.deck

theorem mem_getActivePlayers {ps : List Player} {p : Player} :
    p ∈ getActivePlayers ps ↔ p ∈ ps ∧ p.folded = false ∧ 0 < p.chips := by
  unfold getActivePlayers
  rw [List.mem_filter]
  simp

/-- Players with bets [20, 20, 0]: seat 2 still has to match, and one of the
zero-bettor's peers has folded. -/
def lagPlayers : List Player :=
  [⟨0, 980, [], 20, true⟩, ⟨1, 980, [], 20, false⟩, ⟨2, 1000, [], 0, false⟩]

/-- The same table after seat 2 calls up to the maximum bet. -/
def matchedPlayers : List Player :=
  [⟨0, 980, [], 20, true⟩, ⟨1, 980, [], 20, false⟩, ⟨2, 980, [], 20, false⟩]

/-- The same table after seat 2 folds instead. -/
def foldedLagPlayers : List Player :=
  [⟨0, 980, [], 20, true⟩, ⟨1, 980, [], 20, false⟩, ⟨2, 1000, [], 0, true⟩]

/-- `bettingDone` from the 3-player variant of DemoMode.tsx: every
non-folded player's bet (regardless of chips) equals the table `currentBet`. -/
def bettingDone3 (ps : List Player) (currentBet : Int) : Bool :=
  (ps.filter (fun p => !p.folded)).all (fun p => p.bet == currentBet)

/-- C4 (amended): the 4-player engine's `isBettingRoundComplete` returns true
iff every non-folded player with positive chips has its current-round bet
equal to the maximum bet over those players (vacuously or trivially true when
at most one such player remains); on bets [20,20,0] with the zero-bettor
active it is false, and becomes true once that player matches or folds.  The
3-player variant's `bettingDone` is a different predicate: it returns true
iff every non-folded player — with no chips filter and no at-most-one
shortcut — has its bet equal to the table `currentBet` (see the
counterexample for a configuration where the two disagree). -/
theorem bettingRoundComplete_spec (ps : List Player) (cb : Int) :
    (isBettingRoundComplete ps = true ↔
      ∀ p ∈ ps, p.folded = false → 0 < p.chips →
        p.bet = maxBetOf (getActivePlayers ps))
    ∧ (bettingDone3 ps cb = true ↔ ∀ p ∈ ps, p.folded = false → p.bet = cb)
    ∧ isBettingRoundComplete lagPlayers = false
    ∧ isBettingRoundComplete matchedPlayers = true
    ∧ isBettingRoundComplete foldedLagPlayers = true := by
  refine ⟨?_, ?_, by decide, by decide, by decide⟩
  · unfold isBettingRoundComplete
    by_cases hlen : (getActivePlayers ps).length ≤ 1
    · simp only [hlen, if_pos, true_iff]
      intro p hp hf hc
      have hpA : p ∈ getActivePlayers ps := mem_getActivePlayers.mpr ⟨hp, hf, hc⟩
      match hAe : getActivePlayers ps, hlen, hpA with
      | [q], _, hpA =>
        have : p = q := by simpa using hpA
        subst this
        rfl
    · simp only [hlen, if_neg, if_false, List.all_eq_true]
      constructor
      · intro h p hp hf hc
        have hpA : p ∈ getActivePlayers ps := mem_getActivePlayers.mpr ⟨hp, hf, hc⟩
        have := h p hpA
        rcases Bool.or_eq_true _ _ |>.mp this with h1 | h1
        · exact beq_iff_eq.mp h1
        · exfalso
          have : p.chips = 0 := by simpa using h1
          omega
      · intro h p hpA
        obtain ⟨hp, hf, hc⟩ := mem_getActivePlayers.mp hpA
        have := h p hp hf hc
        simp [this]
  · unfold bettingDone3
    rw [List.all_eq_true]
    constructor
    · intro h p hp hf
      exact beq_iff_eq.mp (h p (List.mem_filter.mpr ⟨hp, by simp [hf]⟩))
    · intro h p hpA
      obtain ⟨hp, hf⟩ := List.mem_filter.mp hpA
      have hf2 : p.folded = false := by simpa using hf
      simp [h p hp hf2]

/-- A configuration with one folded seat and a lone active player whose
current-round bet lags a table bet of 20. -/
def loneLagPlayers : List Player :=
  [⟨0, 980, [], 20, true⟩, ⟨1, 1000, [], 0, false⟩]

/-- C4 counterexample: on a configuration whose only non-folded
chips-positive player still lags the table bet, the claimed
characterization says the round is complete (at most one such player
remains) and the 4-player predicate agrees; but the claim's second cited
round-complete predicate — the 3-player variant's `bettingDone` — returns
false, because it compares every non-folded player's bet to the table
`currentBet` with no at-most-one shortcut.  So the claimed iff does not hold
for every player configuration at that cited site. -/
theorem bettingRoundComplete_cex :
    (getActivePlayers loneLagPlayers).length = 1
    ∧ isBettingRoundComplete loneLagPlayers = true
    ∧ bettingDone3 loneLagPlayers 20 = false := by decide

/-- A 4-player preflop state where it is not seat 0's turn. -/
def exTurnState : GameState :=
  { phase := .preflop, pot := 30, currentBet := 20, currentPlayerIndex := 1,
    community := [], deck := [41, 42, 43, 44, 45],
    players := [⟨0, 1000, [1, 5], 0, false⟩, ⟨1, 990, [2, 6], 10, false⟩,
                ⟨2, 980, [3, 7], 20, false⟩, ⟨3, 1000, [4, 8], 0, false⟩],
    winner := none }

/-- C5: an action invoked out of turn, in a non-betting phase, or whose
precondition fails (check while facing a higher table bet, raise the player
cannot cover) leaves the entire game state unchanged: players, pot, table
bet, phase, community cards, deck, turn index and winner are all untouched. -/
theorem validation_atomicity (s : GameState) (a : HAction)
    (h : (s.phase = .waiting ∨ s.phase = .showdown ∨ s.phase = .finished)
       ∨ s.currentPlayerIndex ≠ 0
       ∨ (a = .check ∧ s.currentBet > (s.players.headD default).bet)
       ∨ (a = .raise ∧ (s.players.headD default).chips <
            s.currentBet + bigBlind * 2 - (s.players.headD default).bet)) :
    handleAction s a = s := by
  unfold handleAction
  split
  · rfl
  · split
    · rfl
    · rename_i hphase hidx
      rcases h with h | h | ⟨rfl, hchk⟩ | ⟨rfl, hr⟩
      · exact absurd h hphase
      · exact absurd h hidx
      · cases hps : s.players with
        | nil => rfl
        | cons p rest =>
          have hb : (s.players.headD default).bet = p.bet := by rw [hps]; rfl
          rw [hb] at hchk
          simp [applyHuman, hchk]
      · cases hps : s.players with
        | nil => rfl
        | cons p rest =>
          have hb : (s.players.headD default).bet = p.bet := by rw [hps]; rfl
          have hc : (s.players.headD default).chips = p.chips := by rw [hps]; rfl
          rw [hb, hc] at hr
          have hneed : s.currentBet + bigBlind * 2 - p.bet > p.chips := by omega
          simp [applyHuman, hneed]

theorem validation_atomicity_witness :
    exTurnState.currentPlayerIndex ≠ 0 ∧ handleAction exTurnState .fold = exTurnState :=
  ⟨by decide, validation_atomicity exTurnState .fold (Or.inr (Or.inl (by decide)))⟩

theorem finishOrAdvance_of_many (s : GameState) (updated : List Player) (pot' cb' : Int)
    (h : 2 ≤ (updated.filter (fun p => !p.folded)).length) :
    finishOrAdvance s updated pot' cb' =
      { s with players := updated, pot := pot', currentBet := cb',
               currentPlayerIndex := findNextPlayer updated 0 } := by
  unfold finishOrAdvance
  rcases hA : updated.filter (fun p => !p.folded) with _ | ⟨q, _ | ⟨r, t⟩⟩ <;>
    rw [hA] at h ⊢ <;> simp_all

/-- C2 (amended): in the 4-player engine, a call by a player with fewer
chips than the amount needed to match is an all-in that zeroes the stack,
raises the bet by exactly the previous stack, and adds that same amount to
the pot — the stack never goes negative.  For the human handler this holds
whenever the unfolded caller still has at least one unfolded opponent (so
the call continues the hand, covering heads-up); the bot's call branch
applies the same clamp.  (The 3-player variant's call branch has no such
clamp; see the counterexample.) -/
theorem allInCall_main (s : GameState) (p : Player) (rest : List Player)
    (hps : s.players = p :: rest)
    (hphase : ¬(s.phase = .waiting ∨ s.phase = .showdown ∨ s.phase = .finished))
    (hidx : s.currentPlayerIndex = 0)
    (hpnf : p.folded = false)
    (hshort : p.chips < s.currentBet - p.bet)
    (hrest : 1 ≤ (rest.filter (fun q => !q.folded)).length) :
    ((handleAction s .call).players = { p with bet := p.bet + p.chips, chips := 0 } :: rest
      ∧ (handleAction s .call).pot = s.pot + p.chips
      ∧ ((handleAction s .call).players.headD default).chips = 0)
    ∧ ∀ (rand : ℚ) (bot : Player),
        ¬(rand < botRaiseThreshold ∧ bot.chips > s.currentBet * 2) →
        ¬(rand < botFoldThreshold ∧ s.currentBet > bot.bet) →
        0 ≤ bot.chips → bot.chips < s.currentBet - bot.bet →
        botDecide rand s bot
          = ({ bot with bet := bot.bet + bot.chips, chips := 0 },
             s.pot + bot.chips, s.currentBet) := by
  constructor
  · have hupd : 2 ≤ (({ p with bet := p.bet + p.chips, chips := 0 } :: rest).filter
        (fun q => !q.folded)).length := by
      rw [List.filter_cons]
      have hnf : (!({ p with bet := p.bet + p.chips, chips := 0 } : Player).folded)
          = true := by simp [hpnf]
      rw [if_pos hnf]
      simp only [List.length_cons]
      omega
    unfold handleAction
    rw [if_neg hphase, if_neg (by simp [hidx]), hps]
    have hgt : s.currentBet - p.bet > p.chips := by omega
    simp only [applyHuman, if_pos hgt]
    rw [finishOrAdvance_of_many _ _ _ _ hupd]
    exact ⟨rfl, rfl, rfl⟩
  · intro rand bot h1 h2 hnn hlt
    unfold botDecide
    rw [if_neg h1, if_neg h2]
    simp only []
    rw [if_pos (by omega : s.currentBet - bot.bet > 0),
        if_pos (by omega : s.currentBet - bot.bet ≥ bot.chips)]

/-- A preflop state where seat 0 faces a 20 bet holding only 7 chips, with
both other seats still in the hand. -/
def shortStackState : GameState :=
  { phase := .preflop, pot := 30, currentBet := 20, currentPlayerIndex := 0,
    community := [], deck := [41, 42, 43],
    players := [⟨0, 7, [1, 5], 0, false⟩, ⟨1, 990, [2, 6], 10, false⟩,
                ⟨2, 980, [3, 7], 20, false⟩],
    winner := none }

theorem allInCall_main_witness :
    shortStackState.players = ⟨0, 7, [1, 5], 0, false⟩ ::
        [⟨1, 990, [2, 6], 10, false⟩, ⟨2, 980, [3, 7], 20, false⟩]
      ∧ (handleAction shortStackState .call).pot = shortStackState.pot + 7
      ∧ (((handleAction shortStackState .call).players.headD default).chips = 0) := by
  refine ⟨by decide, ?_, ?_⟩
  · exact (allInCall_main shortStackState ⟨0, 7, [1, 5], 0, false⟩
      [⟨1, 990, [2, 6], 10, false⟩, ⟨2, 980, [3, 7], 20, false⟩]
      (by decide) (by decide) (by decide) (by decide) (by decide) (by decide)).1.2.1
  · exact (allInCall_main shortStackState ⟨0, 7, [1, 5], 0, false⟩
      [⟨1, 990, [2, 6], 10, false⟩, ⟨2, 980, [3, 7], 20, false⟩]
      (by decide) (by decide) (by decide) (by decide) (by decide) (by decide)).1.2.2

/-- The React state of the 3-player variant component of DemoMode.tsx. -/
structure Game3State where
  phase : Phase
  pot : Int
  currentBet : Int
  turn : Nat
  community : List Nat
  deck : List Nat
  players : List Player
deriving DecidableEq, Repr

/-- The `BLIND` constant of the 3-player variant. -/
def BLIND : Int := 20

/-- `start` from the 3-player variant: shuffle, then give seat `i` the cards
at deck positions `i*2` and `i*2+1` (a burst of two per seat), post blinds at
seats 1 and 2 (refilling broke stacks), and keep the deck from position 6. -/
def start3 (rand : Nat → Nat) (s : Game3State) : Game3State :=
  let d := shuffleDeck rand
  let newPlayers := s.players.mapIdx (fun i p =>
    let blind : Int := if i = 1 then BLIND / 2 else if i = 2 then BLIND else 0
    { p with cards := [d.getD (i * 2) 0, d.getD (i * 2 + 1) 0],
             bet := blind,
             chips := (if p.chips ≤ 0 then 1000 else p.chips) - blind,
             folded := false })
  { s with players := newPlayers, deck := d.drop 6, community := [],
           pot := BLIND + BLIND / 2, currentBet := BLIND, turn := 0, phase := .preflop }

/-- The action tags of the 3-player variant's `action` handler. -/
inductive H3Action where
  | fold | call | raise
deriving DecidableEq, Repr

/-- `action` from the 3-player variant (human, seat 0).  Its call branch
debits the full `currentBet - bet` delta with no all-in clamp. -/
def action3 (s : Game3State) (t : H3Action) : Game3State :=
  if s.turn ≠ 0 ∨ s.phase = .waiting ∨ s.phase = .showdown then s
  else
    match s.players with
    | [] => s
    | p0 :: rest =>
      let pr : Player × Int × Int :=
        match t with
        | .fold => ({ p0 with folded := true }, s.pot, s.currentBet)
        | .call =>
          let amt := s.currentBet - p0.bet
          ({ p0 with chips := p0.chips - amt, bet := s.currentBet }, s.pot + amt, s.currentBet)
        | .raise =>
          let amt := s.currentBet + BLIND - p0.bet
          ({ p0 with chips := p0.chips - amt, bet := s.currentBet + BLIND },
           s.pot + amt, s.currentBet + BLIND)
      let newPlayers := pr.1 :: rest
      let active := newPlayers.filter (fun p => !p.folded)
      match active with
      | [lastP] =>
        { s with players := newPlayers.map (fun x =>
                   if x.id = lastP.id then { x with chips := x.chips + s.pot } else x),
                 pot := pr.2.1, currentBet := pr.2.2, phase := .showdown }
      | _ => { s with players := newPlayers, pot := pr.2.1, currentBet := pr.2.2, turn := 1 }

/-- A 3-player preflop state in which seat 0 holds 10 chips and faces a table
bet of 20 (reachable, e.g., for a seat that posted its last chips as a
blind). -/
def shortStack3State : Game3State :=
  { phase := .preflop, pot := 50, currentBet := 20, turn := 0, community := [], deck := [],
    players := [⟨0, 10, [5, 6], 0, false⟩, ⟨1, 990, [7, 8], 10, false⟩,
                ⟨2, 980, [9, 10], 20, false⟩] }

/-- C2 counterexample: in the 3-player variant's call branch (one of the
claim's cited call sites), a caller with 10 chips needing 20 ends with a
stack of −10 (negative) and the full table bet of 20, and the pot grows by
20 — not by the 10 the player actually had. -/
theorem allInCall_cex :
    ((action3 shortStack3State .call).players.headD default).chips = -10
    ∧ ((action3 shortStack3State .call).players.headD default).bet = 20
    ∧ (action3 shortStack3State .call).pot = shortStack3State.pot + 20 := by decide

theorem dealPass_fst_length (ps : List Player) (d : List Nat) :
    (dealPass ps d).1.length = ps.length := by
  induction ps generalizing d with
  | nil => simp [dealPass]
  | cons p ps ih =>
    cases d with
    | nil => simp [dealPass]
    | cons c d => simp [dealPass, ih]

theorem dealPass_fst_getD (ps : List Player) (d : List Nat) (j : Nat)
    (hj : j < ps.length) (hd : ps.length ≤ d.length) :
    (dealPass ps d).1.getD j default
      = { ps.getD j default with
          cards := (ps.getD j default).cards ++ [d.getD j 0] } := by
  induction ps generalizing d j with
  | nil => simp at hj
  | cons p ps ih =>
    cases d with
    | nil => simp at hd
    | cons c d =>
      cases j with
      | zero => simp [dealPass]
      | succ j =>
        simp only [dealPass, List.getD_cons_succ]
        exact ih d j (by simpa using hj) (by simpa using hd)

theorem dealPass_snd (ps : List Player) (d : List Nat) (hd : ps.length ≤ d.length) :
    (dealPass ps d).2 = d.drop ps.length := by
  induction ps generalizing d with
  | nil => simp [dealPass]
  | cons p ps ih =>
    cases d with
    | nil => simp at hd
    | cons c d =>
      simp only [dealPass, List.length_cons, List.drop_succ_cons]
      exact ih d (by simpa using hd)

theorem modifyAt_getD_cards (ps : List Player) (i j : Nat) (f : Player → Player)
    (hf : ∀ p, (f p).cards = p.cards) :
    ((modifyAt ps i f).getD j default).cards = (ps.getD j default).cards := by
  induction ps generalizing i j with
  | nil => simp [modifyAt]
  | cons p ps ih =>
    cases i with
    | zero =>
      cases j with
      | zero =>
        simp only [modifyAt, List.getD_cons_zero]
        exact hf p
      | succ j => simp [modifyAt]
    | succ i =>
      cases j with
      | zero => simp [modifyAt]
      | succ j =>
        simp only [modifyAt, List.getD_cons_succ]
        exact ih i j

theorem getD_map_player (f : Player → Player) (ps : List Player) (j : Nat)
    (hj : j < ps.length) :
    (ps.map f).getD j default = f (ps.getD j default) := by
  induction ps generalizing j with
  | nil => simp at hj
  | cons p ps ih =>
    cases j with
    | zero => simp
    | succ j =>
      simp only [List.map_cons, List.getD_cons_succ]
      exact ih j (by simpa using hj)

theorem getD_drop_nat (d : List Nat) (n j : Nat) (h : n + j < d.length) :
    (d.drop n).getD j 0 = d.getD (n + j) 0 := by
  have h1 : j < (d.drop n).length := by simp; omega
  rw [List.getD_eq_getElem _ _ h1, List.getD_eq_getElem _ _ h]
  simp [List.getElem_drop]

/-- C8 (amended): at the start of a hand of the 4-player engine (`startGame`,
the claim's first cited deal site) hole cards are dealt round-robin for two
passes: seat `j` receives the shuffled deck's cards at positions `j` and
`j + n`.  (The 3-player variant instead deals positions `2j` and `2j+1`; see
the counterexample.) -/
theorem dealOrder_roundRobin (rand : Nat → Nat) (prior : GameState) (j : Nat)
    (hj : j < prior.players.length) (hn : 2 * prior.players.length ≤ 52) :
    ((startGame rand prior).players.getD j default).cards
      = [(shuffleDeck rand).getD j 0,
         (shuffleDeck rand).getD (j + prior.players.length) 0] := by
  have hlen : (shuffleDeck rand).length = 52 := shuffleDeck_length rand
  have hn52 : (prior.players.map refill).length ≤ (shuffleDeck rand).length := by
    simp [hlen]; omega
  have hj1 : j < (prior.players.map refill).length := by simpa using hj
  have hlen1 : (dealPass (prior.players.map refill) (shuffleDeck rand)).1.length
      = prior.players.length := by
    rw [dealPass_fst_length]; simp
  have hsnd : (dealPass (prior.players.map refill) (shuffleDeck rand)).2
      = (shuffleDeck rand).drop prior.players.length := by
    rw [dealPass_snd _ _ hn52]; simp
  have hj2 : j < (dealPass (prior.players.map refill) (shuffleDeck rand)).1.length := by
    rw [hlen1]; exact hj
  have hd2 : (dealPass (prior.players.map refill) (shuffleDeck rand)).1.length
      ≤ (dealPass (prior.players.map refill) (shuffleDeck rand)).2.length := by
    rw [hlen1, hsnd]
    simp [hlen]; omega
  unfold startGame
  simp only
  rw [modifyAt_getD_cards _ 2 j
        (fun p => { p with bet := bigBlind, chips := p.chips - bigBlind }) (fun _ => rfl),
      modifyAt_getD_cards _ 1 j
        (fun p => { p with bet := smallBlind, chips := p.chips - smallBlind }) (fun _ => rfl)]
  rw [dealPass_fst_getD _ _ _ hj2 hd2]
  simp only
  rw [dealPass_fst_getD _ _ _ hj1 hn52]
  simp only
  rw [getD_map_player refill _ _ hj, hsnd, getD_drop_nat]
  · simp [refill, Nat.add_comm]
  · simp [hlen]; omega

theorem dealOrder_roundRobin_witness :
    (2 < exTurnState.players.length ∧ 2 * exTurnState.players.length ≤ 52)
    ∧ ((startGame (fun _ => 0) exTurnState).players.getD 2 default).cards
      = [(shuffleDeck (fun _ => 0)).getD 2 0,
         (shuffleDeck (fun _ => 0)).getD (2 + exTurnState.players.length) 0] :=
  ⟨by decide, dealOrder_roundRobin (fun _ => 0) exTurnState 2 (by decide) (by decide)⟩

/-- A fresh 3-player table before any hand. -/
def initial3State : Game3State :=
  { phase := .waiting, pot := 0, currentBet := 0, turn := 0, community := [], deck := [],
    players := [⟨0, 1000, [], 0, false⟩, ⟨1, 1000, [], 0, false⟩, ⟨2, 1000, [], 0, false⟩] }

/-- C8 counterexample: at a hand start of the 3-player variant (`start`, the
claim's second cited deal site, n = 3) seat 1 receives the cards at deck
positions 2 and 3 — a burst of two — and not the round-robin positions 1 and
1 + 3 that the claim asserts for every hand start. -/
theorem dealOrder_cex :
    ((start3 (fun _ => 0) initial3State).players.getD 1 default).cards
      = [(shuffleDeck (fun _ => 0)).getD 2 0, (shuffleDeck (fun _ => 0)).getD 3 0]
    ∧ ((start3 (fun _ => 0) initial3State).players.getD 1 default).cards
      ≠ [(shuffleDeck (fun _ => 0)).getD 1 0, (shuffleDeck (fun _ => 0)).getD 4 0] := by
  decide

/-- C3 (amended): `determineWinner` picks the winner uniformly from the
non-folded players that still have chips (`getActivePlayers`); an all-in
player with a zero stack is not in the pool.  When the pool is non-empty, a
member of it is chosen, the captured pot is added to that winner's stack via
`awardPot`, and the phase moves to finished. -/
theorem showdown_winner (wrand : Nat) (cps : List Player) (cpot : Int) (s : GameState)
    (h : getActivePlayers cps ≠ []) :
    determineWinner wrand cps cpot s
      = { s with
          players := awardPot cps
            ((getActivePlayers cps).getD (wrand % (getActivePlayers cps).length) default).id
            cpot,
          winner := some
            ((getActivePlayers cps).getD (wrand % (getActivePlayers cps).length) default).id,
          phase := .finished }
    ∧ (getActivePlayers cps).getD (wrand % (getActivePlayers cps).length) default
        ∈ getActivePlayers cps
    ∧ ((getActivePlayers cps).getD (wrand % (getActivePlayers cps).length) default).folded
        = false
    ∧ 0 < ((getActivePlayers cps).getD (wrand % (getActivePlayers cps).length) default).chips
    := by
  have hlen : 0 < (getActivePlayers cps).length := List.length_pos.mpr h
  have hidx : wrand % (getActivePlayers cps).length < (getActivePlayers cps).length :=
    Nat.mod_lt _ hlen
  have hmem : (getActivePlayers cps).getD (wrand % (getActivePlayers cps).length) default
      ∈ getActivePlayers cps := by
    rw [List.getD_eq_getElem _ _ hidx]
    exact List.getElem_mem hidx
  obtain ⟨-, hfold, hchips⟩ := mem_getActivePlayers.mp hmem
  refine ⟨?_, hmem, hfold, hchips⟩
  unfold determineWinner
  rcases hA : getActivePlayers cps with _ | ⟨q, t⟩
  · exact absurd hA h
  · rw [← hA]
    simp only [hA]

/-- A showdown state whose two remaining players both still have chips. -/
def showdownState : GameState :=
  { phase := .showdown, pot := 120, currentBet := 0, currentPlayerIndex := 0,
    community := [10, 11, 12, 13, 14], deck := [40, 41],
    players := [⟨0, 940, [1, 2], 0, false⟩, ⟨1, 940, [3, 4], 0, false⟩,
                ⟨2, 1000, [5, 6], 0, true⟩, ⟨3, 1000, [7, 8], 0, true⟩],
    winner := none }

theorem showdown_winner_witness :
    getActivePlayers showdownState.players ≠ []
    ∧ (determineWinner 1 showdownState.players 120 showdownState).phase = .finished
    ∧ (determineWinner 1 showdownState.players 120 showdownState).winner = some 1 := by
  refine ⟨by decide, ?_, ?_⟩
  · rw [(showdown_winner 1 showdownState.players 120 showdownState (by decide)).1]
  · rw [(showdown_winner 1 showdownState.players 120 showdownState (by decide)).1]
    decide

/-- A showdown state in which seat 0 is all-in (stack 0, not folded). -/
def allInShowdownState : GameState :=
  { phase := .showdown, pot := 300, currentBet := 0, currentPlayerIndex := 0,
    community := [10, 11, 12, 13, 14], deck := [],
    players := [⟨0, 0, [1, 2], 0, false⟩, ⟨1, 500, [3, 4], 0, false⟩,
                ⟨2, 900, [5, 6], 0, true⟩],
    winner := none }

/-- A showdown state in which every non-folded player is all-in. -/
def allAllInState : GameState :=
  { phase := .showdown, pot := 300, currentBet := 0, currentPlayerIndex := 0,
    community := [10, 11, 12, 13, 14], deck := [],
    players := [⟨0, 0, [1, 2], 0, false⟩, ⟨1, 0, [3, 4], 0, false⟩,
                ⟨2, 900, [5, 6], 0, true⟩],
    winner := none }

/-- C3 counterexample: seat 0 of `allInShowdownState` is non-folded (all-in
with stack 0) yet is excluded from the pool `determineWinner` draws from, so
the winner is not chosen from exactly the set of non-folded players; and when
every non-folded player is all-in the function selects nobody: the state is
returned unchanged — no pot award, no transition to finished. -/
theorem showdown_winner_cex :
    (⟨0, 0, [1, 2], 0, false⟩ : Player)
        ∈ allInShowdownState.players.filter (fun p => !p.folded)
    ∧ (⟨0, 0, [1, 2], 0, false⟩ : Player) ∉ getActivePlayers allInShowdownState.players
    ∧ determineWinner 0 allAllInState.players 300 allAllInState = allAllInState := by
  decide

/-! Remote-Authoritative Game Client (`src/frontend/src/pages/Game.tsx`).
On-chain game states are numbered 0 Waiting, 1 Pre-Flop, 2 Flop, 3 Turn,
4 River, 5 Showdown, 6 Game Over (`getStateLabel`). -/

/-- The per-hand client cache: decrypted hole cards, reveal status, pending
decryption flag, and the previously observed game state. -/
structure ClientCacheState where
  decryptedCard1 : Option Nat
  decryptedCard2 : Option Nat
  hasRevealedCards : Bool
  pendingDecryption : Bool
  previousGameState : Option Nat
deriving DecidableEq, Repr

/-- The phase-transition `useEffect` of Game.tsx: read the current game state
from `tableInfo` (slot 0), clear the per-hand cache exactly when the previous
observation was 0 (Waiting) and the current one is 1 (Pre-Flop), then record
the current observation. -/
def phaseTransitionEffect (tableInfo : Option (List Nat)) (s : ClientCacheState) :
    ClientCacheState :=
  let currentGameState : Option Nat := tableInfo.map (fun t => t.getD 0 0)
  let s1 :=
    if s.previousGameState = some 0 ∧ currentGameState = some 1 then
      { s with decryptedCard1 := none, decryptedCard2 := none,
               hasRevealedCards := false, pendingDecryption := false }
    else s
  match currentGameState with
  | some c => { s1 with previousGameState := some c }
  | none => s1

/-- C6 (amended): when the polled phase transitions from Waiting (0) into
Pre-Flop (1) — the one new-hand transition the effect tests for — the cached
decrypted hole cards are reset to null and the reveal-status and
pending-decryption flags are cleared.  (A transition observed as Waiting
directly into a later active phase does not clear the cache; see the
counterexample.) -/
theorem reveal_isolation (tableInfo : Option (List Nat)) (s : ClientCacheState)
    (t : List Nat) (hprev : s.previousGameState = some 0)
    (hti : tableInfo = some t) (hcur : t.getD 0 0 = 1) :
    (phaseTransitionEffect tableInfo s).decryptedCard1 = none
    ∧ (phaseTransitionEffect tableInfo s).decryptedCard2 = none
    ∧ (phaseTransitionEffect tableInfo s).hasRevealedCards = false
    ∧ (phaseTransitionEffect tableInfo s).pendingDecryption = false
    ∧ (phaseTransitionEffect tableInfo s).previousGameState = some 1 := by
  subst hti
  rw [List.getD_eq_getElem?_getD] at hcur
  unfold phaseTransitionEffect
  simp [hprev, hcur]

/-- A cache still holding hand-N secrets, with Waiting as the last observed
state. -/
def staleCache : ClientCacheState :=
  { decryptedCard1 := some 7, decryptedCard2 := some 21,
    hasRevealedCards := true, pendingDecryption := true,
    previousGameState := some 0 }

theorem reveal_isolation_witness :
    staleCache.previousGameState = some 0
    ∧ (phaseTransitionEffect (some [1, 3]) staleCache).decryptedCard1 = none
    ∧ (phaseTransitionEffect (some [1, 3]) staleCache).pendingDecryption = false :=
  ⟨by decide,
   (reveal_isolation (some [1, 3]) staleCache [1, 3] (by decide) rfl (by decide)).1,
   (reveal_isolation (some [1, 3]) staleCache [1, 3] (by decide) rfl (by decide)).2.2.2.1⟩

/-- C6 counterexample: a poll that observes Waiting (0) followed directly by
Flop (2) — the hand started and advanced between ticks — is a transition from
Waiting into an active phase, yet the effect clears nothing: the hand-N
decrypted card value is retained. -/
theorem reveal_isolation_cex :
    staleCache.previousGameState = some 0
    ∧ (phaseTransitionEffect (some [2, 3]) staleCache).decryptedCard1 = some 7
    ∧ (phaseTransitionEffect (some [2, 3]) staleCache).hasRevealedCards = true := by
  decide

/-- The outcome environment of one polling tick: for each contract read of
`loadGameInfo`, whether it succeeds and the value it returns. -/
structure FetchPlan where
  initOk : Bool
  playerAddrOk : Bool
  playerTableOk : Bool
  playerTableVal : Nat
  tableInfoOk : Bool
  tableInfoVal : List Nat
  playersInfoOk : Bool
  playersInfoVal : Nat
  playerIndexOk : Bool
  playerIndexVal : Nat
  playerCardsOk : Bool
  card1 : Nat
  card2 : Nat
  communityOk : Bool
  communityVal : List Nat
  winnerOk : Bool
  winnerVal : Nat
  revealedOk : Bool
  revealedVal : Bool
deriving DecidableEq, Repr

/-- The error slot set by `setError` (payload text abstracted away). -/
inductive PollError where
  | notInTable | wrongTable | exn
deriving DecidableEq, Repr

/-- The React state read and written by `loadGameInfo` (the players-info
payload is abstracted to an opaque token). -/
structure PollState where
  loadAttempts : Nat
  error : Option PollError
  tableInfo : Option (List Nat)
  playersInfo : Option Nat
  myPlayerIndex : Option Nat
  playerCards : Option (Nat × Nat)
  communityCards : Option (List Nat)
  winnerInfo : Option Nat
  hasRevealedCards : Bool
  pendingDecryption : Bool
  decryptedCard1 : Option Nat
  decryptedCard2 : Option Nat
deriving DecidableEq, Repr

/-- Which sub-fetches of a tick were actually executed. -/
structure Attempted where
  playerTable : Bool
  tableInfo : Bool
  playersInfo : Bool
  playerIndex : Bool
  playerCards : Bool
  community : Bool
  winner : Bool
  revealed : Bool
deriving DecidableEq, Repr

/-- The tail of `loadGameInfo` from `getTableInfo` on, rendered as the final
value each state field holds after the straight-line sequence of awaits.
`getTableInfo` and `getCommunityCards` are awaited with no individual
try/catch, so their failures fall through to the surrounding handler; the
players-info, player-index, player-cards, winner and reveal-status reads each
sit in their own `try {} catch {}` and on failure leave their field alone.
The code's stale-closure reads (`myPlayerIndex`, `decryptedCards`) use the
input state `s0`. -/
def pollRest (f : FetchPlan) (s0 s : PollState) (att : Attempted) :
    PollState × Attempted :=
  if f.tableInfoOk = false then
    ({ s with error := some .exn }, { att with tableInfo := true })
  else
    let playersInfo' := if f.playersInfoOk then some f.playersInfoVal else s.playersInfo
    let myPlayerIndex' := if f.playerIndexOk then some f.playerIndexVal else s.myPlayerIndex
    let playerCards' := if f.playerCardsOk then some (f.card1, f.card2) else s.playerCards
    let pending' :=
      if f.playerCardsOk ∧ f.card1 ≠ 0 ∧ f.card2 ≠ 0
          ∧ (s0.decryptedCard1 = none ∨ s0.decryptedCard2 = none)
      then true else s.pendingDecryption
    let att' := { att with tableInfo := true, playersInfo := true, playerIndex := true,
                           playerCards := true, community := true }
    if f.communityOk = false then
      ({ s with tableInfo := some f.tableInfoVal, playersInfo := playersInfo',
                myPlayerIndex := myPlayerIndex', playerCards := playerCards',
                pendingDecryption := pending', error := some .exn }, att')
    else
      let gameState := f.tableInfoVal.getD 0 0
      let winnerInfo' := if gameState = 6 ∧ f.winnerOk then some f.winnerVal else s.winnerInfo
      let hasRevealed' :=
        if (gameState = 5 ∧ s0.myPlayerIndex ≠ none) ∧ f.revealedOk
        then f.revealedVal else s.hasRevealedCards
      ({ s with tableInfo := some f.tableInfoVal, playersInfo := playersInfo',
                myPlayerIndex := myPlayerIndex', playerCards := playerCards',
                pendingDecryption := pending', communityCards := some f.communityVal,
                winnerInfo := winnerInfo', hasRevealedCards := hasRevealed',
                error := none },
       { att' with winner := if gameState = 6 then true else att.winner,
                   revealed := if gameState = 5 ∧ s0.myPlayerIndex ≠ none
                               then true else att.revealed })

/-- `loadGameInfo` from Game.tsx, as a function of one tick's fetch outcomes.
The opening `initialize`/`getPlayerAddress` calls sit before any inner
try/catch; the `getPlayerTable` check is individually caught, and two of its
success paths return early. -/
def loadGameInfo (f : FetchPlan) (tableId : Nat) (s : PollState) : PollState × Attempted :=
  let att0 : Attempted := ⟨false, false, false, false, false, false, false, false⟩
  if f.initOk = false ∨ f.playerAddrOk = false then
    ({ s with error := some .exn }, att0)
  else
    let att1 := { att0 with playerTable := true }
    if f.playerTableOk = false then pollRest f s s att1
    else if f.playerTableVal = 0 then
      if s.loadAttempts < 3 then
        pollRest f s { s with loadAttempts := s.loadAttempts + 1 } att1
      else ({ s with error := some .notInTable }, att1)
    else if f.playerTableVal ≠ tableId + 1 then
      ({ s with error := some .wrongTable }, att1)
    else pollRest f s { s with loadAttempts := 0 } att1

theorem pollRest_spec (f : FetchPlan) (s0 s : PollState) (att : Attempted)
    (hti : f.tableInfoOk = true) (hcc : f.communityOk = true)
    (hf1 : s.playersInfo = s0.playersInfo) (hf2 : s.myPlayerIndex = s0.myPlayerIndex)
    (hf3 : s.playerCards = s0.playerCards) (hf4 : s.winnerInfo = s0.winnerInfo)
    (hf5 : s.hasRevealedCards = s0.hasRevealedCards) :
    (pollRest f s0 s att).2.playerTable = att.playerTable
    ∧ (pollRest f s0 s att).2.tableInfo = true
    ∧ (pollRest f s0 s att).2.playersInfo = true
    ∧ (pollRest f s0 s att).2.playerIndex = true
    ∧ (pollRest f s0 s att).2.playerCards = true
    ∧ (pollRest f s0 s att).2.community = true
    ∧ (f.playersInfoOk = false → (pollRest f s0 s att).1.playersInfo = s0.playersInfo)
    ∧ (f.playerIndexOk = false → (pollRest f s0 s att).1.myPlayerIndex = s0.myPlayerIndex)
    ∧ (f.playerCardsOk = false → (pollRest f s0 s att).1.playerCards = s0.playerCards)
    ∧ (f.tableInfoVal.getD 0 0 = 6 → (pollRest f s0 s att).2.winner = true
        ∧ (f.winnerOk = false → (pollRest f s0 s att).1.winnerInfo = s0.winnerInfo))
    ∧ ((f.tableInfoVal.getD 0 0 = 5 ∧ s0.myPlayerIndex ≠ none) →
        (pollRest f s0 s att).2.revealed = true
        ∧ (f.revealedOk = false →
            (pollRest f s0 s att).1.hasRevealedCards = s0.hasRevealedCards)) := by
  unfold pollRest
  rw [if_neg (by simp [hti]), if_neg (by simp [hcc])]
  refine ⟨rfl, rfl, rfl, rfl, rfl, rfl, ?_, ?_, ?_, ?_, ?_⟩
  · intro hx; simp [hx, hf1]
  · intro hx; simp [hx, hf2]
  · intro hx; simp [hx, hf3]
  · intro hg
    rw [List.getD_eq_getElem?_getD] at hg
    refine ⟨by simp [hg], ?_⟩
    intro hx
    simp [hg, hx, hf4]
  · intro hg
    rw [List.getD_eq_getElem?_getD] at hg
    refine ⟨by simp [hg], ?_⟩
    intro hx
    simp [hg, hx, hf5]

/-- C7 (amended): in a tick where the unguarded awaits succeed (initialize,
player address, table info, community cards) and the player-table check does
not return early, each individually try/caught sub-fetch (players info,
player index, player cards, winner in Game Over, reveal status in Showdown)
executes regardless of the others failing, and the state field of a failed
sub-fetch keeps its previous value.  (A table-info or community-cards failure
instead aborts the remainder of the tick; see the counterexample.) -/
theorem polling_partial_tolerance (f : FetchPlan) (tid : Nat) (s : PollState)
    (hinit : f.initOk = true) (haddr : f.playerAddrOk = true)
    (hpt : f.playerTableOk = false ∨ f.playerTableVal = tid + 1)
    (hti : f.tableInfoOk = true) (hcc : f.communityOk = true) :
    (loadGameInfo f tid s).2.playerTable = true
    ∧ (loadGameInfo f tid s).2.tableInfo = true
    ∧ (loadGameInfo f tid s).2.playersInfo = true
    ∧ (loadGameInfo f tid s).2.playerIndex = true
    ∧ (loadGameInfo f tid s).2.playerCards = true
    ∧ (loadGameInfo f tid s).2.community = true
    ∧ (f.playersInfoOk = false → (loadGameInfo f tid s).1.playersInfo = s.playersInfo)
    ∧ (f.playerIndexOk = false → (loadGameInfo f tid s).1.myPlayerIndex = s.myPlayerIndex)
    ∧ (f.playerCardsOk = false → (loadGameInfo f tid s).1.playerCards = s.playerCards)
    ∧ (f.tableInfoVal.getD 0 0 = 6 → (loadGameInfo f tid s).2.winner = true
        ∧ (f.winnerOk = false → (loadGameInfo f tid s).1.winnerInfo = s.winnerInfo))
    ∧ ((f.tableInfoVal.getD 0 0 = 5 ∧ s.myPlayerIndex ≠ none) →
        (loadGameInfo f tid s).2.revealed = true
        ∧ (f.revealedOk = false →
            (loadGameInfo f tid s).1.hasRevealedCards = s.hasRevealedCards)) := by
  have hguard : ¬(f.initOk = false ∨ f.playerAddrOk = false) := by simp [hinit, haddr]
  by_cases hok : f.playerTableOk = false
  · unfold loadGameInfo
    rw [if_neg hguard, if_pos hok]
    have h := pollRest_spec f s s ⟨true, false, false, false, false, false, false, false⟩
      hti hcc rfl rfl rfl rfl rfl
    simpa using h
  · rcases hpt with hpt | hpt
    · exact absurd hpt hok
    · unfold loadGameInfo
      rw [if_neg hguard, if_neg hok, if_neg (by omega), if_neg (by omega)]
      have h := pollRest_spec f s { s with loadAttempts := 0 }
        ⟨true, false, false, false, false, false, false, false⟩ hti hcc rfl rfl rfl rfl rfl
      simpa using h

/-- A tick environment in which only the table-info read fails. -/
def tableInfoFailPlan : FetchPlan :=
  { initOk := true, playerAddrOk := true, playerTableOk := true, playerTableVal := 1,
    tableInfoOk := false, tableInfoVal := [1, 2], playersInfoOk := true, playersInfoVal := 5,
    playerIndexOk := true, playerIndexVal := 0, playerCardsOk := true, card1 := 3, card2 := 4,
    communityOk := true, communityVal := [], winnerOk := true, winnerVal := 0,
    revealedOk := true, revealedVal := false }

/-- The client state before a tick, nothing yet fetched. -/
def basePollState : PollState :=
  { loadAttempts := 0, error := none, tableInfo := none, playersInfo := none,
    myPlayerIndex := none, playerCards := none, communityCards := none, winnerInfo := none,
    hasRevealedCards := false, pendingDecryption := false,
    decryptedCard1 := none, decryptedCard2 := none }

/-- A tick environment in which only the players-info read fails. -/
def playersInfoFailPlan : FetchPlan :=
  { tableInfoFailPlan with tableInfoOk := true, playersInfoOk := false }

theorem polling_partial_tolerance_witness :
    playersInfoFailPlan.playersInfoOk = false
    ∧ (loadGameInfo playersInfoFailPlan 0 basePollState).2.playerIndex = true
    ∧ (loadGameInfo playersInfoFailPlan 0 basePollState).2.playerCards = true
    ∧ (loadGameInfo playersInfoFailPlan 0 basePollState).2.community = true
    ∧ (loadGameInfo playersInfoFailPlan 0 basePollState).1.playersInfo
        = basePollState.playersInfo := by
  have h := polling_partial_tolerance playersInfoFailPlan 0 basePollState
    (by decide) (by decide) (Or.inr (by decide)) (by decide) (by decide)
  exact ⟨by decide, h.2.2.2.1, h.2.2.2.2.1, h.2.2.2.2.2.1, h.2.2.2.2.2.2.1 (by decide)⟩

/-- C7 counterexample: a tick in which only the table-info sub-fetch fails —
a single sub-fetch failure — never reaches the players-info, player-index,
player-cards or community-cards sub-fetches: the failure is handled by the
surrounding catch, not independently, and it aborts the rest of the tick. -/
theorem polling_tolerance_cex :
    tableInfoFailPlan.tableInfoOk = false
    ∧ tableInfoFailPlan.playersInfoOk = true
    ∧ (loadGameInfo tableInfoFailPlan 0 basePollState).2.tableInfo = true
    ∧ (loadGameInfo tableInfoFailPlan 0 basePollState).2.playersInfo = false
    ∧ (loadGameInfo tableInfoFailPlan 0 basePollState).2.playerIndex = false
    ∧ (loadGameInfo tableInfoFailPlan 0 basePollState).2.playerCards = false
    ∧ (loadGameInfo tableInfoFailPlan 0 basePollState).2.community = false := by
  decide

theorem sumChips_cons (p : Player) (ps : List Player) :
    sumChips (p :: ps) = p.chips + sumChips ps := by
  simp [sumChips]

theorem sumChips_map_chipsEq (f : Player → Player) (ps : List Player)
    (hf : ∀ p, (f p).chips = p.chips) : sumChips (ps.map f) = sumChips ps := by
  induction ps with
  | nil => rfl
  | cons p ps ih => simp [sumChips_cons, hf, ih]

theorem sumChips_set (ps : List Player) (i : Nat) (q : Player) (h : i < ps.length) :
    sumChips (ps.set i q) = sumChips ps - (ps.getD i default).chips + q.chips := by
  induction ps generalizing i with
  | nil => simp at h
  | cons p ps ih =>
    cases i with
    | zero => simp [sumChips_cons]; ring
    | succ i =>
      simp only [List.set_cons_succ, sumChips_cons, List.getD_cons_succ]
      rw [ih i (by simpa using h)]
      ring

theorem modifyAt_length (ps : List Player) (i : Nat) (f : Player → Player) :
    (modifyAt ps i f).length = ps.length := by
  induction ps generalizing i with
  | nil => rfl
  | cons p ps ih =>
    cases i with
    | zero => rfl
    | succ i => simp [modifyAt, ih]

theorem sumChips_modifyAt (ps : List Player) (i : Nat) (f : Player → Player) (c : Int)
    (hf : ∀ p, (f p).chips = p.chips + c) (h : i < ps.length) :
    sumChips (modifyAt ps i f) = sumChips ps + c := by
  induction ps generalizing i with
  | nil => simp at h
  | cons p ps ih =>
    cases i with
    | zero => simp [modifyAt, sumChips_cons, hf]; ring
    | succ i =>
      simp only [modifyAt, sumChips_cons]
      rw [ih i (by simpa using h)]
      ring

theorem dealPass_chips (ps : List Player) (d : List Nat) :
    (dealPass ps d).1.map Player.chips = ps.map Player.chips := by
  induction ps generalizing d with
  | nil => simp [dealPass]
  | cons p ps ih =>
    cases d with
    | nil => simp [dealPass]
    | cons c d => simp [dealPass, ih]

theorem sumChips_dealPass (ps : List Player) (d : List Nat) :
    sumChips (dealPass ps d).1 = sumChips ps := by
  unfold sumChips
  rw [dealPass_chips]

/-- The initial-render state of the 4-player component: four seats with 1000
chips, no cards, waiting phase. -/
def initialState : GameState :=
  { phase := .waiting, pot := 0, currentBet := 0, currentPlayerIndex := 0,
    community := [], deck := [],
    players := [⟨0, 1000, [], 0, false⟩, ⟨1, 1000, [], 0, false⟩,
                ⟨2, 1000, [], 0, false⟩, ⟨3, 1000, [], 0, false⟩],
    winner := none }

theorem startGame_sum (rand : Nat → Nat) (prior : GameState)
    (hlen : 3 ≤ prior.players.length) :
    sumChips (startGame rand prior).players + (startGame rand prior).pot
      = startSum prior := by
  unfold startGame startSum
  simp only
  have h1 : (dealPass (prior.players.map refill) (shuffleDeck rand)).1.length
      = prior.players.length := by
    rw [dealPass_fst_length]; simp
  have h2 : (dealPass (dealPass (prior.players.map refill) (shuffleDeck rand)).1
      (dealPass (prior.players.map refill) (shuffleDeck rand)).2).1.length
      = prior.players.length := by
    rw [dealPass_fst_length, h1]
  rw [sumChips_modifyAt _ 2 _ (-bigBlind)
        (by intro p; simp; ring) (by rw [modifyAt_length, h2]; omega),
      sumChips_modifyAt _ 1 _ (-smallBlind)
        (by intro p; simp; ring) (by rw [h2]; omega),
      sumChips_dealPass, sumChips_dealPass]
  simp [smallBlind, bigBlind]
  ring

theorem stepA_terminal (a : Act) (s : GameState)
    (h : s.phase = .waiting ∨ s.phase = .showdown ∨ s.phase = .finished) :
    stepA a s = s := by
  cases a with
  | human ha =>
    show handleAction s ha = s
    unfold handleAction
    rw [if_pos h]
  | bot r w =>
    show botStep r w s = s
    unfold botStep
    rw [if_pos h]

theorem finishOrAdvance_cases (s : GameState) (updated : List Player) (pot' cb' : Int) :
    (∃ wid, finishOrAdvance s updated pot' cb' =
        { s with players := awardPot updated wid s.pot, pot := pot', currentBet := cb',
                 winner := some wid, phase := .finished })
    ∨ finishOrAdvance s updated pot' cb' =
        { s with players := updated, pot := pot', currentBet := cb',
                 currentPlayerIndex := findNextPlayer updated 0 } := by
  unfold finishOrAdvance
  rcases hA : updated.filter (fun p => !p.folded) with _ | ⟨q, _ | ⟨r, t⟩⟩ <;>
    simp only [hA]
  · right; trivial
  · left; exact ⟨q.id, rfl⟩
  · right; trivial

theorem botSkipAdvance_cases (w : Nat) (s : GameState) :
    botSkipAdvance w s = nextPhase w s.pot s
    ∨ ∃ nx, botSkipAdvance w s = { s with currentPlayerIndex := nx } := by
  simp only [botSkipAdvance]
  by_cases h1 : (findNextPlayer s.players s.currentPlayerIndex = 0
      ∨ findNextPlayer s.players s.currentPlayerIndex = -1)
  · rw [if_pos h1]
    by_cases h2 : isBettingRoundComplete s.players
    · rw [if_pos h2]; left; rfl
    · rw [if_neg h2]; right; exact ⟨0, rfl⟩
  · rw [if_neg h1]; right; exact ⟨findNextPlayer s.players s.currentPlayerIndex, rfl⟩

theorem botFinishOrAdvance_cases (w : Nat) (s : GameState) (updated : List Player)
    (pot' cb' : Int) (idx : Int) :
    (∃ wid, botFinishOrAdvance w s updated pot' cb' idx =
        { s with players := awardPot updated wid s.pot, pot := pot', currentBet := cb',
                 winner := some wid, phase := .finished })
    ∨ botFinishOrAdvance w s updated pot' cb' idx =
        nextPhase w s.pot { s with players := updated, pot := pot', currentBet := cb' }
    ∨ ∃ nx, botFinishOrAdvance w s updated pot' cb' idx =
        { s with players := updated, pot := pot', currentBet := cb',
                 currentPlayerIndex := nx } := by
  simp only [botFinishOrAdvance]
  rcases hA : updated.filter (fun p => !p.folded) with _ | ⟨q, _ | ⟨r, t⟩⟩ <;>
    simp only [hA]
  · right
    by_cases h1 : findNextPlayer updated idx = 0
    · rw [if_pos h1]
      by_cases h2 : isBettingRoundComplete updated
      · rw [if_pos h2]; left; rfl
      · rw [if_neg h2]; right; exact ⟨0, rfl⟩
    · rw [if_neg h1]
      by_cases h3 : findNextPlayer updated idx = -1
      · rw [if_pos h3]; left; rfl
      · rw [if_neg h3]; right; exact ⟨findNextPlayer updated idx, rfl⟩
  · left; exact ⟨q.id, rfl⟩
  · right
    by_cases h1 : findNextPlayer updated idx = 0
    · rw [if_pos h1]
      by_cases h2 : isBettingRoundComplete updated
      · rw [if_pos h2]; left; rfl
      · rw [if_neg h2]; right; exact ⟨0, rfl⟩
    · rw [if_neg h1]
      by_cases h3 : findNextPlayer updated idx = -1
      · rw [if_pos h3]; left; rfl
      · rw [if_neg h3]; right; exact ⟨findNextPlayer updated idx, rfl⟩

theorem handleAction_cases (s : GameState) (a : HAction) :
    handleAction s a = s
    ∨ ∃ p rest p' pot' cb', s.players = p :: rest
        ∧ applyHuman a s p = some (p', pot', cb')
        ∧ handleAction s a = finishOrAdvance s (p' :: rest) pot' cb' := by
  unfold handleAction
  split
  · left; rfl
  · split
    · left; rfl
    · split
      · left; rfl
      · rename_i pl tl hps
        split
        · left; rfl
        · rename_i p' pot' cb' happ
          right
          exact ⟨pl, tl, p', pot', cb', hps, happ, rfl⟩

theorem botStep_cases (r : ℚ) (w : Nat) (s : GameState) :
    botStep r w s = s
    ∨ botStep r w s = botSkipAdvance w s
    ∨ ∃ bot, s.players.get? s.currentPlayerIndex.toNat = some bot ∧ bot.folded = false
        ∧ botStep r w s = botFinishOrAdvance w s
            (s.players.set s.currentPlayerIndex.toNat (botDecide r s bot).1)
            (botDecide r s bot).2.1 (botDecide r s bot).2.2 s.currentPlayerIndex := by
  unfold botStep
  split
  · left; rfl
  · split
    · left; rfl
    · by_cases hpos : 0 ≤ s.currentPlayerIndex
      · rw [if_pos hpos]
        rcases hget : s.players.get? s.currentPlayerIndex.toNat with _ | bot <;>
          simp only []
        · right; left; trivial
        · by_cases hf : bot.folded
          · rw [if_pos hf]; right; left; trivial
          · rw [if_neg hf]; right; right
            exact ⟨bot, rfl, by simpa using hf, by trivial⟩
      · rw [if_neg hpos]; right; left; trivial

theorem nextPhase_cases (w : Nat) (cp : Int) (s : GameState) :
    nextPhase w cp s =
        { s with players := s.players.map (fun p => { p with bet := 0 }), currentBet := 0,
                 community := s.deck.take 3, deck := s.deck.drop 3, phase := .flop,
                 currentPlayerIndex :=
                   firstActiveIdx (s.players.map (fun p => { p with bet := 0 })) }
    ∨ (∃ ph, nextPhase w cp s =
        { s with players := s.players.map (fun p => { p with bet := 0 }), currentBet := 0,
                 community := s.community ++ s.deck.take 1, deck := s.deck.drop 1,
                 phase := ph,
                 currentPlayerIndex :=
                   firstActiveIdx (s.players.map (fun p => { p with bet := 0 })) })
    ∨ nextPhase w cp s =
        { s with players := s.players.map (fun p => { p with bet := 0 }), currentBet := 0,
                 phase := .showdown,
                 currentPlayerIndex :=
                   firstActiveIdx (s.players.map (fun p => { p with bet := 0 })) }
    ∨ (∃ wid, nextPhase w cp s =
        { s with players := awardPot s.players wid cp, currentBet := 0, phase := .finished,
                 winner := some wid,
                 currentPlayerIndex :=
                   firstActiveIdx (s.players.map (fun p => { p with bet := 0 })) })
    ∨ nextPhase w cp s =
        { s with players := s.players.map (fun p => { p with bet := 0 }), currentBet := 0,
                 currentPlayerIndex :=
                   firstActiveIdx (s.players.map (fun p => { p with bet := 0 })) } := by
  unfold nextPhase
  cases s.phase <;> simp only
  · right; right; right; right; trivial
  · left; trivial
  · right; left; exact ⟨.turn, by trivial⟩
  · right; left; exact ⟨.river, by trivial⟩
  · unfold determineWinner
    rcases hA : getActivePlayers s.players with _ | ⟨q, t⟩ <;> simp only [hA]
    · right; right; left; trivial
    · right; right; right; left
      exact ⟨((q :: t).getD (w % (q :: t).length) default).id, by trivial⟩
  · right; right; right; right; trivial
  · right; right; right; right; trivial

theorem applyHuman_conserve (a : HAction) (s : GameState) (p p' : Player)
    (pot' cb' : Int) (h : applyHuman a s p = some (p', pot', cb')) :
    p'.chips + pot' = p.chips + s.pot ∧ p'.cards = p.cards := by
  cases a with
  | fold =>
    simp only [applyHuman, Option.some.injEq, Prod.mk.injEq] at h
    obtain ⟨h1, h2, -⟩ := h
    subst h1; subst h2
    exact ⟨by ring, rfl⟩
  | check =>
    simp only [applyHuman] at h
    split at h
    · exact absurd h (by simp)
    · simp only [Option.some.injEq, Prod.mk.injEq] at h
      obtain ⟨h1, h2, -⟩ := h
      subst h1; subst h2
      exact ⟨by ring, rfl⟩
  | call =>
    simp only [applyHuman] at h
    split at h <;>
      · simp only [Option.some.injEq, Prod.mk.injEq] at h
        obtain ⟨h1, h2, -⟩ := h
        subst h1; subst h2
        exact ⟨by ring, rfl⟩
  | raise =>
    simp only [applyHuman] at h
    split at h
    · exact absurd h (by simp)
    · simp only [Option.some.injEq, Prod.mk.injEq] at h
      obtain ⟨h1, h2, -⟩ := h
      subst h1; subst h2
      exact ⟨by ring, rfl⟩

theorem botDecide_conserve (rand : ℚ) (s : GameState) (bot : Player) :
    (botDecide rand s bot).1.chips + (botDecide rand s bot).2.1 = bot.chips + s.pot
    ∧ (botDecide rand s bot).1.cards = bot.cards := by
  unfold botDecide
  by_cases h1 : (rand < botRaiseThreshold ∧ bot.chips > s.currentBet * 2)
  · rw [if_pos h1]; exact ⟨by ring, rfl⟩
  · rw [if_neg h1]
    by_cases h2 : (rand < botFoldThreshold ∧ s.currentBet > bot.bet)
    · rw [if_pos h2]; exact ⟨by ring, rfl⟩
    · rw [if_neg h2]
      simp only []
      by_cases h3 : s.currentBet - bot.bet > 0
      · rw [if_pos h3]
        by_cases h4 : s.currentBet - bot.bet ≥ bot.chips
        · rw [if_pos h4]; exact ⟨by ring, rfl⟩
        · rw [if_neg h4]; exact ⟨by ring, rfl⟩
      · rw [if_neg h3]; exact ⟨by ring, rfl⟩

theorem nextPhase_conserve (w : Nat) (cp : Int) (s : GameState)
    (h : (nextPhase w cp s).phase ≠ .finished) :
    sumChips (nextPhase w cp s).players + (nextPhase w cp s).pot
      = sumChips s.players + s.pot := by
  have hmap : sumChips (s.players.map (fun p => { p with bet := 0 })) = sumChips s.players :=
    sumChips_map_chipsEq _ _ (fun p => rfl)
  rcases nextPhase_cases w cp s with hc | ⟨ph, hc⟩ | hc | ⟨wid, hc⟩ | hc <;> rw [hc] <;>
    simp [hmap]
  exact absurd (by rw [hc]) h

theorem stepA_conserve (a : Act) (s : GameState)
    (h : (stepA a s).phase ≠ .finished) :
    sumChips (stepA a s).players + (stepA a s).pot = sumChips s.players + s.pot := by
  cases a with
  | human ha =>
    show sumChips (handleAction s ha).players + (handleAction s ha).pot = _
    rcases handleAction_cases s ha with hc | ⟨p, rest, p', pot', cb', hps, happ, hc⟩
    · rw [hc]
    · rw [hc]
      rcases finishOrAdvance_cases s (p' :: rest) pot' cb' with ⟨wid, hf⟩ | hf
      · exfalso
        apply h
        show (handleAction s ha).phase = .finished
        rw [hc, hf]
      · rw [hf]
        simp only [hps, sumChips_cons]
        have := (applyHuman_conserve ha s p p' pot' cb' happ).1
        omega
  | bot r w =>
    show sumChips (botStep r w s).players + (botStep r w s).pot = _
    have h' : (botStep r w s).phase ≠ .finished := h
    have hskip : ∀ hsk : (botSkipAdvance w s).phase ≠ .finished,
        sumChips (botSkipAdvance w s).players + (botSkipAdvance w s).pot
          = sumChips s.players + s.pot := by
      intro hsk
      rcases botSkipAdvance_cases w s with hc | ⟨nx, hc⟩
      · rw [hc]
        rw [hc] at hsk
        exact nextPhase_conserve w s.pot s hsk
      · rw [hc]
    rcases botStep_cases r w s with hc | hc | ⟨bot, hget, hfold, hc⟩
    · rw [hc]
    · rw [hc]
      rw [hc] at h'
      exact hskip h'
    · rw [hc]
      rw [hc] at h'
      have hlt : s.currentPlayerIndex.toNat < s.players.length :=
        List.get?_eq_some.mp hget |>.1
      have hgd : s.players.getD s.currentPlayerIndex.toNat default = bot := by
        rw [List.getD_eq_getElem?_getD, ← List.get?_eq_getElem?, hget]
        rfl
      have hsum : sumChips (s.players.set s.currentPlayerIndex.toNat (botDecide r s bot).1)
          + (botDecide r s bot).2.1 = sumChips s.players + s.pot := by
        rw [sumChips_set _ _ _ hlt, hgd]
        have := (botDecide_conserve r s bot).1
        omega
      rcases botFinishOrAdvance_cases w s
          (s.players.set s.currentPlayerIndex.toNat (botDecide r s bot).1)
          (botDecide r s bot).2.1 (botDecide r s bot).2.2 s.currentPlayerIndex with
        ⟨wid, hf⟩ | hf | ⟨nx, hf⟩
      · exfalso
        apply h'
        rw [hf]
      · rw [hf] at h' ⊢
        rw [nextPhase_conserve _ _ _ h']
        simpa using hsum
      · rw [hf]
        simpa using hsum

theorem reaches_sum {s0 s : GameState} (h : Reaches s0 s) (hph : s.phase ≠ .finished) :
    sumChips s.players + s.pot = sumChips s0.players + s0.pot := by
  induction h with
  | refl => rfl
  | step a hr ih =>
    rename_i t
    by_cases ht : t.phase = .finished
    · have hterm : stepA a t = t := stepA_terminal a t (Or.inr (Or.inr ht))
      rw [hterm] at hph ⊢
      exact absurd ht hph
    · rw [stepA_conserve a t hph]
      exact ih ht

/-- C1 (amended): within a hand of the 4-player engine, for every sequence of
actions (human handler or bot effect), as long as the hand has not finished
the sum of all chip stacks plus the pot equals the sum of the stacks at hand
start (after the broke-player refill).  Once the hand finishes this equality
breaks: the pot is awarded to the winner's stack but the pot counter is never
reset to 0 (see the counterexample). -/
theorem chip_conservation (rand : Nat → Nat) (prior : GameState) (s : GameState)
    (hlen : 3 ≤ prior.players.length)
    (h : Reaches (startGame rand prior) s) (hph : s.phase ≠ .finished) :
    sumChips s.players + s.pot = startSum prior := by
  rw [reaches_sum h hph]
  exact startGame_sum rand prior hlen

theorem chip_conservation_witness :
    (3 ≤ initialState.players.length
      ∧ Reaches (startGame (fun _ => 0) initialState) (startGame (fun _ => 0) initialState)
      ∧ (startGame (fun _ => 0) initialState).phase ≠ .finished)
    ∧ sumChips (startGame (fun _ => 0) initialState).players
        + (startGame (fun _ => 0) initialState).pot = startSum initialState :=
  ⟨⟨by decide, Reaches.refl _, by decide⟩,
   chip_conservation (fun _ => 0) initialState _ (by decide) (Reaches.refl _) (by decide)⟩

/-- A concrete bot draw of 0.2 (between the raise and fold thresholds), in
constructor form. -/
def ratFifth : ℚ := ⟨1, 5, by decide, by decide⟩

/-- The end state of a concrete hand: bot 3 folds, the human folds, bot 1
folds, and bot 2 is awarded the pot as the lone survivor. -/
def foldOutTrace : GameState :=
  stepA (.bot ratFifth 0) (stepA (.human .fold) (stepA (.bot ratFifth 0)
    (startGame (fun _ => 0) initialState)))

/-- C1 counterexample: after the fold-out trace the hand is finished, the
chips alone already total the hand-start sum (the pot was paid into the
winner's stack), yet the un-reset pot counter still reads 30, so
`sum(chipStack) + pot` exceeds the hand-start sum by 30. -/
theorem chip_conservation_cex :
    foldOutTrace.phase = .finished
    ∧ sumChips foldOutTrace.players = startSum initialState
    ∧ foldOutTrace.pot = 30
    ∧ sumChips foldOutTrace.players + foldOutTrace.pot ≠ startSum initialState := by
  decide

theorem flatMapCards_map (f : Player → Player) (ps : List Player)
    (hf : ∀ p, (f p).cards = p.cards) :
    (ps.map f).flatMap Player.cards = ps.flatMap Player.cards := by
  induction ps with
  | nil => rfl
  | cons p ps ih => simp [hf, ih]

theorem flatMapCards_set (ps : List Player) (i : Nat) (q : Player)
    (hq : q.cards = (ps.getD i default).cards) :
    (ps.set i q).flatMap Player.cards = ps.flatMap Player.cards := by
  induction ps generalizing i with
  | nil => rfl
  | cons p ps ih =>
    cases i with
    | zero =>
      simp only [List.getD_cons_zero] at hq
      simp [hq]
    | succ i =>
      simp only [List.getD_cons_succ] at hq
      simp [ih i hq]

theorem flatMapCards_modifyAt (ps : List Player) (i : Nat) (f : Player → Player)
    (hf : ∀ p, (f p).cards = p.cards) :
    (modifyAt ps i f).flatMap Player.cards = ps.flatMap Player.cards := by
  induction ps generalizing i with
  | nil => rfl
  | cons p ps ih =>
    cases i with
    | zero => simp [modifyAt, hf]
    | succ i => simp [modifyAt, ih]

theorem flatMapCards_awardPot (ps : List Player) (wid : Nat) (amt : Int) :
    (awardPot ps wid amt).flatMap Player.cards = ps.flatMap Player.cards := by
  unfold awardPot
  apply flatMapCards_map
  intro p
  split <;> rfl

theorem flatMapCards_refill (ps : List Player) :
    (ps.map refill).flatMap Player.cards = [] := by
  induction ps with
  | nil => rfl
  | cons p ps ih => simp [refill, ih]

theorem dealPass_cards_perm (ps : List Player) (d : List Nat) :
    ((dealPass ps d).1.flatMap Player.cards ++ (dealPass ps d).2).Perm
      (ps.flatMap Player.cards ++ d) := by
  induction ps generalizing d with
  | nil => simp [dealPass]
  | cons p ps ih =>
    cases d with
    | nil => simp [dealPass]
    | cons c d =>
      simp only [dealPass, List.flatMap_cons, List.append_assoc, List.cons_append,
        List.singleton_append, List.nil_append]
      refine List.Perm.append_left p.cards ?_
      exact ((ih d).cons c).trans List.perm_middle.symm

theorem allCards_startGame (rand : Nat → Nat) (prior : GameState) :
    (allCards (startGame rand prior)).Perm (shuffleDeck rand) := by
  unfold allCards startGame
  simp only [List.append_nil]
  rw [flatMapCards_modifyAt _ 2
        (fun p => { p with bet := bigBlind, chips := p.chips - bigBlind }) (fun p => rfl),
      flatMapCards_modifyAt _ 1
        (fun p => { p with bet := smallBlind, chips := p.chips - smallBlind }) (fun p => rfl)]
  have h2 := dealPass_cards_perm
    (dealPass (prior.players.map refill) (shuffleDeck rand)).1
    (dealPass (prior.players.map refill) (shuffleDeck rand)).2
  have h1 := dealPass_cards_perm (prior.players.map refill) (shuffleDeck rand)
  rw [flatMapCards_refill] at h1
  simpa using h2.trans h1

theorem subperm_append_mid (P c d : List Nat) : (P ++ d).Subperm (P ++ (c ++ d)) :=
  ((List.Sublist.refl P).append (List.sublist_append_right c d)).subperm

theorem allCards_nextPhase (w : Nat) (cp : Int) (s : GameState) :
    (allCards (nextPhase w cp s)).Subperm (allCards s) := by
  have hmap : (s.players.map (fun p => { p with bet := 0 })).flatMap Player.cards
      = s.players.flatMap Player.cards := flatMapCards_map _ _ (fun p => rfl)
  rcases nextPhase_cases w cp s with hc | ⟨ph, hc⟩ | hc | ⟨wid, hc⟩ | hc <;>
    rw [hc] <;> unfold allCards <;>
    simp only [hmap, flatMapCards_awardPot, List.append_assoc, List.take_append_drop]
  · exact subperm_append_mid _ _ _
  · exact List.Subperm.refl _
  · exact List.Subperm.refl _
  · exact List.Subperm.refl _
  · exact List.Subperm.refl _

theorem allCards_stepA (a : Act) (s : GameState) :
    (allCards (stepA a s)).Subperm (allCards s) := by
  cases a with
  | human ha =>
    show (allCards (handleAction s ha)).Subperm (allCards s)
    rcases handleAction_cases s ha with hc | ⟨p, rest, p', pot', cb', hps, happ, hc⟩
    · rw [hc]
    · have hcards : p'.cards = p.cards := (applyHuman_conserve ha s p p' pot' cb' happ).2
      have hflat : (p' :: rest).flatMap Player.cards = s.players.flatMap Player.cards := by
        rw [hps]
        simp [hcards]
      rw [hc]
      rcases finishOrAdvance_cases s (p' :: rest) pot' cb' with ⟨wid, hf⟩ | hf <;>
        rw [hf] <;> unfold allCards <;>
        simp only [flatMapCards_awardPot, hflat] <;>
        exact List.Subperm.refl _
  | bot r w =>
    show (allCards (botStep r w s)).Subperm (allCards s)
    have hskip : (allCards (botSkipAdvance w s)).Subperm (allCards s) := by
      rcases botSkipAdvance_cases w s with hc | ⟨nx, hc⟩ <;> rw [hc]
      · exact allCards_nextPhase w s.pot s
      · exact List.Subperm.refl _
    rcases botStep_cases r w s with hc | hc | ⟨bot, hget, hfold, hc⟩
    · rw [hc]
    · rw [hc]; exact hskip
    · rw [hc]
      have hgd : s.players.getD s.currentPlayerIndex.toNat default = bot := by
        rw [List.getD_eq_getElem?_getD, ← List.get?_eq_getElem?, hget]
        rfl
      have hflat : (s.players.set s.currentPlayerIndex.toNat
          (botDecide r s bot).1).flatMap Player.cards
          = s.players.flatMap Player.cards := by
        apply flatMapCards_set
        rw [hgd]
        exact (botDecide_conserve r s bot).2
      rcases botFinishOrAdvance_cases w s
          (s.players.set s.currentPlayerIndex.toNat (botDecide r s bot).1)
          (botDecide r s bot).2.1 (botDecide r s bot).2.2 s.currentPlayerIndex with
        ⟨wid, hf⟩ | hf | ⟨nx, hf⟩ <;> rw [hf]
      · unfold allCards
        simp only [flatMapCards_awardPot, hflat]
        exact List.Subperm.refl _
      · refine (allCards_nextPhase w s.pot _).trans ?_
        unfold allCards
        simp only [hflat]
        exact List.Subperm.refl _
      · unfold allCards
        simp only [hflat]
        exact List.Subperm.refl _

theorem reaches_allCards {s0 s : GameState} (h : Reaches s0 s) :
    (allCards s).Subperm (allCards s0) := by
  induction h with
  | refl => exact List.Subperm.refl _
  | step a hr ih =>
    rename_i t
    exact (allCards_stepA a t).trans ih

theorem cards_sublist_flatMap {p : Player} {ps : List Player} (h : p ∈ ps) :
    p.cards.Sublist (ps.flatMap Player.cards) := by
  induction ps with
  | nil => simp at h
  | cons q ps ih =>
    rcases List.mem_cons.mp h with h | h
    · subst h
      simp only [List.flatMap_cons]
      exact List.sublist_append_left _ _
    · simp only [List.flatMap_cons]
      exact (ih h).trans (List.sublist_append_right _ _)

/-- C10: at every state reachable within a hand of the 4-player engine (from
`startGame`, through human actions, bot steps, and every `nextPhase`
transition), the full collection of hole cards, community cards and undealt
deck is duplicate-free — no card value ever sits in two places: not in two
hands, not in a hand and on the board, and not both dealt and in the deck. -/
theorem no_card_in_two_places (rand : Nat → Nat) (prior : GameState) (s : GameState)
    (h : Reaches (startGame rand prior) s) :
    (allCards s).Nodup
    ∧ s.community.Nodup ∧ s.deck.Nodup ∧ s.community.Disjoint s.deck
    ∧ (∀ p ∈ s.players, p.cards.Nodup ∧ p.cards.Disjoint s.community
        ∧ p.cards.Disjoint s.deck) := by
  have hnd : (allCards s).Nodup := by
    obtain ⟨l, hlp, hls⟩ := reaches_allCards h
    have hdeck : (shuffleDeck rand).Nodup :=
      (shuffleDeck_perm rand).nodup_iff.mpr (List.nodup_range' 1 52)
    have h0 : (allCards (startGame rand prior)).Nodup :=
      (allCards_startGame rand prior).nodup_iff.mpr hdeck
    exact hlp.nodup_iff.mp (hls.nodup h0)
  have hsplit := hnd
  unfold allCards at hsplit
  rw [List.append_assoc, List.nodup_append] at hsplit
  obtain ⟨hP, hcd, hdisj⟩ := hsplit
  rw [List.nodup_append] at hcd
  obtain ⟨hcomm, hdeck, hcd2⟩ := hcd
  refine ⟨hnd, hcomm, hdeck, hcd2, ?_⟩
  intro p hp
  have hsub : p.cards.Sublist (s.players.flatMap Player.cards) := cards_sublist_flatMap hp
  refine ⟨hsub.nodup hP, ?_, ?_⟩
  · intro x hx hxc
    exact hdisj (List.Sublist.mem hx hsub) (by simp [hxc])
  · intro x hx hxd
    exact hdisj (List.Sublist.mem hx hsub) (by simp [hxd])

theorem no_card_in_two_places_witness :
    Reaches (startGame (fun _ => 0) initialState) (startGame (fun _ => 0) initialState)
    ∧ (allCards (startGame (fun _ => 0) initialState)).Nodup :=
  ⟨Reaches.refl _,
   (no_card_in_two_places (fun _ => 0) initialState _ (Reaches.refl _)).1⟩

end FhePoker
